import Mathlib

/-!
Verification of the TCP duplex-connection transport adapter
(`packages/rsocket-tcp-client/src/RSocketTcpClient.js`).

The connection state, its event handlers (`close`, `_handleData`,
`_handleEnd`, `_handleError`, `_readFrames`, `_writeFrame`, `sendOne`,
`send`, `receive`) and the connector (`connect`) are embedded as pure
Lean functions over an explicit state record, with externally observable
actions (subscriber callbacks, socket writes, listener detachment)
recorded in an event list.

The frame codec (`deserializeFrames` / `serializeFrameWithLength`) lives
in the `rsocket-core` package, outside the sources under verification;
it is modelled from the specification as a length-prefixed byte codec.
-/

namespace RSocketTcp

/-! ## The modelled frame codec -/

/-- A frame is opaque to the transport: we model it as its payload bytes. -/
abbrev Frame := List Nat

/-- Modelled from the spec: the codec writes a fixed-width (3-byte,
base-256, big-endian) length before the payload, so a peer can recover
frame boundaries from an arbitrarily chunked byte stream. -/
def encodeLen (n : Nat) : List Nat :=
  [n / 65536, n / 256 % 256, n % 256]

/-- Decode a 3-byte big-endian length; any other shape decodes to zero. -/
def decodeLen : List Nat → Nat
  | [a, b, c] => a * 65536 + b * 256 + c
  | _ => 0

/-- Modelled from the spec: `serializeFrameWithLength` (rsocket-core, not
under the verified sources) produces the length-prefixed encoding of a
frame. -/
def serializeLP (f : Frame) : List Nat :=
  encodeLen f.length ++ f

/-- Serialization of a whole frame sequence: concatenation of the
individual length-prefixed encodings. -/
def serializeAll : List Frame → List Nat
  | [] => []
  | f :: fs => serializeLP f ++ serializeAll fs

/-- Concatenation of a chunk list into the byte stream it delivers. -/
def joinChunks : List (List Nat) → List Nat
  | [] => []
  | c :: cs => c ++ joinChunks cs

/-- A frame is encodable when its length fits the 3-byte length field. -/
def frameOK (f : Frame) : Prop := f.length < 16777216

/-- Every frame of the list fits the 3-byte length field. -/
def framesOK (fs : List Frame) : Prop := ∀ f ∈ fs, frameOK f

instance : DecidablePred frameOK := fun f => by
  unfold frameOK; infer_instance

instance (fs : List Frame) : Decidable (framesOK fs) := by
  unfold framesOK; infer_instance

/-- Fuel-indexed worker for frame extraction; the fuel only bounds the
recursion depth and is immaterial once it reaches the buffer length. -/
def deserializeFramesGo : Nat → List Nat → List Frame × List Nat
  | 0, buf => ([], buf)
  | fuel + 1, buf =>
    if 3 ≤ buf.length ∧ 3 + decodeLen (buf.take 3) ≤ buf.length then
      let len := decodeLen (buf.take 3)
      let p := deserializeFramesGo fuel (buf.drop (3 + len))
      ((buf.drop 3).take len :: p.1, p.2)
    else ([], buf)

/-- Modelled from the spec: `deserializeFrames` (rsocket-core, not under
the verified sources) repeatedly strips complete length-prefixed frames
off the front of the buffer and returns them together with the
incomplete trailing remainder. -/
def deserializeFramesLP (buf : List Nat) : List Frame × List Nat :=
  deserializeFramesGo buf.length buf

/-- A buffer holds no complete frame: extraction leaves it untouched. -/
def frameFree (buf : List Nat) : Prop :=
  ¬(3 ≤ buf.length ∧ 3 + decodeLen (buf.take 3) ≤ buf.length)

instance : DecidablePred frameFree := fun buf => by
  unfold frameFree; infer_instance

/-- Repeatedly feed chunks through append-and-extract, starting from a
given buffered remainder; returns all extracted frames in order and the
final remainder. -/
def feedBytes (B : List Nat) : List (List Nat) → List Frame × List Nat
  | [] => ([], B)
  | c :: cs =>
    let p := deserializeFramesLP (B ++ c)
    let q := feedBytes p.2 cs
    (p.1 ++ q.1, q.2)

/-! ## The duplex connection state and its observable events -/

/-- Externally observable effects of a `TcpDuplexConnection` operation:
subscriber callbacks, sender-subscription calls, socket writes and the
lifecycle actions performed by `close`. Receivers and senders are
identified by numeric ids. -/
inductive Ev where
  | onNext (r : Nat) (f : Frame)
  | onError (r : Nat) (e : String)
  | onComplete (r : Nat)
  | cancelSender (sid : Nat)
  | request (sid : Nat) (n : Nat)
  | write (bytes : List Nat)
  | resolveClose
  | detachListeners
  | socketEnd
deriving DecidableEq

/-- The mutable fields of `TcpDuplexConnection`, plus two booleans
recording whether the socket listeners installed by the constructor are
still attached and whether `socket.end()` has been called. The receiver
and sender sets are JS `Set`s, modelled as duplicate-free lists in
insertion order (the iteration order of `Set.forEach`). -/
structure ConnState where
  active : Bool
  buffer : List Nat
  closeResolved : Bool
  receivers : List Nat
  senders : List Nat
  listenersAttached : Bool
  socketEnded : Bool
deriving DecidableEq

/-- The state built by the `TcpDuplexConnection` constructor: active,
empty buffer (`createBuffer(0)`), pending close deferred, empty receiver
and sender sets, the four socket listeners attached. -/
def initialState : ConnState :=
  { active := true
    buffer := []
    closeResolved := false
    receivers := []
    senders := []
    listenersAttached := true
    socketEnded := false }

/-- The external frame codec interface used by the connection:
`deserializeFrames` and `serializeFrameWithLength` from `rsocket-core`.
Either operation may throw, modelled by `Except`. -/
structure Codec where
  deserializeFrames : List Nat → Except String (List Frame × List Nat)
  serializeFrameWithLength : Frame → Except String (List Nat)

/-- Modelled from the spec: the concrete codec instance, in which
extraction is total (any byte triple is a readable length field) and
serialization fails exactly when the frame length overflows the 3-byte
length field. -/
def lpCodec : Codec where
  deserializeFrames buf := .ok (deserializeFramesLP buf)
  serializeFrameWithLength f :=
    if f.length < 16777216 then .ok (serializeLP f)
    else .error "frame too large"

/-- A codec collaborator whose operations always throw; exercises the
failure paths of the handlers, which are codec-agnostic. -/
def failCodec : Codec where
  deserializeFrames _ := .error "boom"
  serializeFrameWithLength _ := .error "boom"

/-- JS `Set.add`: appends the element at the end of the iteration order
unless it is already present. -/
def insertSet (l : List Nat) (x : Nat) : List Nat :=
  if x ∈ l then l else l ++ [x]

/-- JS `Set.delete`: removes the element, keeping the order of the rest. -/
def deleteSet (l : List Nat) (x : Nat) : List Nat :=
  l.filter (fun y => y ≠ x)

/-- `close`: if the connection is no longer active this is a no-op;
otherwise set `_active = false`, resolve the close deferred, complete
and clear the receivers, cancel and clear the senders, remove all socket
listeners and end the socket — in exactly that order. -/
def close (s : ConnState) : ConnState × List Ev :=
  if s.active then
    ({ active := false
       buffer := s.buffer
       closeResolved := true
       receivers := []
       senders := []
       listenersAttached := false
       socketEnded := true },
      Ev.resolveClose ::
        (s.receivers.map Ev.onComplete ++ s.senders.map Ev.cancelSender ++
          [Ev.detachListeners, Ev.socketEnd]))
  else (s, [])

/-- `_handleError`: deliver `onError(error)` to every registered
receiver, then call `close()`. -/
def handleError (s : ConnState) (e : String) : ConnState × List Ev :=
  let q := close s
  (q.1, s.receivers.map (fun r => Ev.onError r e) ++ q.2)

/-- The error message synthesized by `_handleEnd`. -/
def unexpectedCloseMsg : String := "RSocketTcpClient: Socket closed unexpectedly."

/-- `_handleEnd`: synthesize the unexpected-close error and run
`_handleError`. -/
def handleEnd (s : ConnState) : ConnState × List Ev :=
  handleError s unexpectedCloseMsg

/-- The delivery loop of `_handleData`: for each extracted frame in
order, call `onNext(frame)` on every registered receiver. -/
def deliverAll (rs : List Nat) : List Frame → List Ev
  | [] => []
  | f :: fs => rs.map (fun r => Ev.onNext r f) ++ deliverAll rs fs

/-- `_readFrames`: concatenate the buffered remainder with the chunk,
run the codec extraction once, store the returned remainder as the new
buffer, and return the extracted frames. -/
def readFrames (κ : Codec) (s : ConnState) (chunk : List Nat) :
    Except String (List Frame × ConnState) :=
  match κ.deserializeFrames (s.buffer ++ chunk) with
  | .ok p => .ok (p.1, { s with buffer := p.2 })
  | .error e => .error e

/-- `_handleData`: try `_readFrames` and broadcast each frame to every
receiver; on a codec exception run `_handleError(error)` and then
`close()`. -/
def handleData (κ : Codec) (s : ConnState) (chunk : List Nat) :
    ConnState × List Ev :=
  match readFrames κ s chunk with
  | .ok p => (p.2, deliverAll p.2.receivers p.1)
  | .error e =>
    let q := handleError s e
    let q2 := close q.1
    (q2.1, q.2 ++ q2.2)

/-- `_writeFrame`: serialize the frame and write the bytes to the
socket; a serialization exception runs `_handleError(error)`. There is
no check of `_active` before the write. -/
def writeFrame (κ : Codec) (s : ConnState) (f : Frame) : ConnState × List Ev :=
  match κ.serializeFrameWithLength f with
  | .ok bytes => (s, [Ev.write bytes])
  | .error e => handleError s e

/-- `sendOne`: delegate to `_writeFrame`. -/
def sendOne (κ : Codec) (s : ConnState) (f : Frame) : ConnState × List Ev :=
  writeFrame κ s f

/-- `Number.MAX_SAFE_INTEGER`, the demand requested from every producer
subscription. -/
def maxSafeInteger : Nat := 9007199254740991

/-- The actions that can reach a live connection: socket events
(dispatched only while the constructor-installed listeners are attached)
and the calls made by the public API and by `send`/`receive`
subscription callbacks. -/
inductive Act where
  | socketClose
  | socketData (chunk : List Nat)
  | socketEndEvent
  | socketError (e : String)
  | apiClose
  | apiSendOne (f : Frame)
  | recvOnSubscribe (r : Nat)
  | recvRequest (r : Nat)
  | recvCancel (r : Nat)
  | sendOnSubscribe (sid : Nat)
  | sendOnNext (sid : Nat) (f : Frame)
  | sendOnComplete (sid : Nat)
  | sendOnError (sid : Nat) (e : String)

/-- One step of the connection: socket events reach their handlers only
while the listeners are attached (`socket.removeAllListeners()` detaches
them); `receive()` registers a receiver in its `request` callback and
removes it in `cancel`, while its `onSubscribe` callback mutates no
connection state; `send` requests `Number.MAX_SAFE_INTEGER` and
registers the subscription on `onSubscribe`, writes on `onNext`,
deregisters on `onComplete` and runs `_handleError` on `onError`. -/
def step (κ : Codec) (s : ConnState) : Act → ConnState × List Ev
  | .socketClose => if s.listenersAttached then close s else (s, [])
  | .socketData chunk => if s.listenersAttached then handleData κ s chunk else (s, [])
  | .socketEndEvent => if s.listenersAttached then handleEnd s else (s, [])
  | .socketError e => if s.listenersAttached then handleError s e else (s, [])
  | .apiClose => close s
  | .apiSendOne f => sendOne κ s f
  | .recvOnSubscribe _ => (s, [])
  | .recvRequest r => ({ s with receivers := insertSet s.receivers r }, [])
  | .recvCancel r => ({ s with receivers := deleteSet s.receivers r }, [])
  | .sendOnSubscribe sid =>
    ({ s with senders := insertSet s.senders sid }, [Ev.request sid maxSafeInteger])
  | .sendOnNext _ f => writeFrame κ s f
  | .sendOnComplete sid => ({ s with senders := deleteSet s.senders sid }, [])
  | .sendOnError _ e => handleError s e

/-- Fold `_handleData` over a whole chunk sequence, accumulating the
observable events. -/
def processChunks (κ : Codec) (s : ConnState) : List (List Nat) → ConnState × List Ev
  | [] => (s, [])
  | c :: cs =>
    let p := handleData κ s c
    let q := processChunks κ p.1 cs
    (q.1, p.2 ++ q.2)

/-- Fold `_writeFrame` over the frames emitted, in order, by one
producer registered through `send`. -/
def emitAll (κ : Codec) (s : ConnState) : List Frame → ConnState × List Ev
  | [] => (s, [])
  | f :: fs =>
    let p := writeFrame κ s f
    let q := emitAll κ p.1 fs
    (q.1, p.2 ++ q.2)

/-- The subsequence of frames delivered by `onNext` to one receiver, in
delivery order. -/
def onNextsFor (r : Nat) (evs : List Ev) : List Frame :=
  evs.filterMap fun e =>
    match e with
    | Ev.onNext r' f => if r' = r then some f else none
    | _ => none

/-! ## The transport connector (`RSocketTcpClient.connect`) -/

/-- Externally observable effects of the connect attempt. -/
inductive CEv where
  | detachListeners
  | futureError (e : String)
  | futureResolveNewConnection
  | socketEnd
deriving DecidableEq

/-- The `onError` closure of `connect`: `socket.removeAllListeners()`
and then fail the future with the underlying error. -/
def connectOnError (e : String) : List CEv :=
  [CEv.detachListeners, CEv.futureError e]

/-- The `onComplete` closure of `connect`: `socket.removeAllListeners()`
and then resolve the future with a newly constructed
`TcpDuplexConnection` wrapping the connected socket. -/
def connectOnComplete : List CEv :=
  [CEv.detachListeners, CEv.futureResolveNewConnection]

/-- The cancellation closure handed to `onSubscribe`: detach listeners
and end the socket. -/
def connectCancel : List CEv :=
  [CEv.detachListeners, CEv.socketEnd]

/-- Which one-shot socket signal fires first during the connect attempt
(both closures start by removing all listeners, so only one ever runs). -/
inductive FirstSocketSignal where
  | errored (e : String)
  | connected

/-- The events of a connect attempt, determined by the first socket
signal. -/
def connectRun : FirstSocketSignal → List CEv
  | .errored e => connectOnError e
  | .connected => connectOnComplete

/-! ## Codec lemmas -/

/-- Round-trip of the 3-byte length field. -/
theorem decodeLen_encodeLen (n : Nat) :
    decodeLen (encodeLen n) = n := by
  simp only [encodeLen, decodeLen]
  omega

theorem length_encodeLen (n : Nat) : (encodeLen n).length = 3 := rfl

theorem length_serializeLP (f : Frame) :
    (serializeLP f).length = 3 + f.length := by
  simp [serializeLP, encodeLen]
  omega

theorem serializeAll_append (l₁ l₂ : List Frame) :
    serializeAll (l₁ ++ l₂) = serializeAll l₁ ++ serializeAll l₂ := by
  induction l₁ with
  | nil => simp [serializeAll]
  | cons f fs ih => simp [serializeAll, ih]

/-- The result of the worker does not depend on the fuel once the fuel
covers the buffer length. -/
theorem deserializeFramesGo_fuel :
    ∀ m n (buf : List Nat), buf.length ≤ m → buf.length ≤ n →
      deserializeFramesGo m buf = deserializeFramesGo n buf := by
  intro m
  induction m with
  | zero =>
    intro n buf hm _
    have hb : buf = [] := List.eq_nil_of_length_eq_zero (Nat.le_zero.mp hm)
    subst hb
    cases n with
    | zero => rfl
    | succ k => simp [deserializeFramesGo]
  | succ m ih =>
    intro n buf hm hn
    cases n with
    | zero =>
      have hb : buf = [] := List.eq_nil_of_length_eq_zero (Nat.le_zero.mp hn)
      subst hb
      simp [deserializeFramesGo]
    | succ k =>
      simp only [deserializeFramesGo]
      by_cases hc : 3 ≤ buf.length ∧ 3 + decodeLen (buf.take 3) ≤ buf.length
      · simp only [if_pos hc]
        have hdrop : (buf.drop (3 + decodeLen (buf.take 3))).length ≤ m := by
          simp only [List.length_drop]
          omega
        have hdrop' : (buf.drop (3 + decodeLen (buf.take 3))).length ≤ k := by
          simp only [List.length_drop]
          omega
        rw [ih k _ hdrop hdrop']
      · simp only [if_neg hc]

/-- One-step unfolding of frame extraction. -/
theorem deserializeFramesLP_eq (buf : List Nat) :
    deserializeFramesLP buf =
      if 3 ≤ buf.length ∧ 3 + decodeLen (buf.take 3) ≤ buf.length then
        ((buf.drop 3).take (decodeLen (buf.take 3)) ::
            (deserializeFramesLP (buf.drop (3 + decodeLen (buf.take 3)))).1,
          (deserializeFramesLP (buf.drop (3 + decodeLen (buf.take 3)))).2)
      else ([], buf) := by
  by_cases hc : 3 ≤ buf.length ∧ 3 + decodeLen (buf.take 3) ≤ buf.length
  · obtain ⟨k, hk⟩ : ∃ k, buf.length = k + 1 := ⟨buf.length - 1, by omega⟩
    have h1 : (buf.drop (3 + decodeLen (buf.take 3))).length ≤ k := by
      simp only [List.length_drop]
      omega
    simp only [if_pos hc]
    show deserializeFramesGo buf.length buf = _
    rw [hk]
    simp only [deserializeFramesGo, if_pos hc]
    rw [deserializeFramesGo_fuel k (buf.drop (3 + decodeLen (buf.take 3))).length
          (buf.drop (3 + decodeLen (buf.take 3))) h1 le_rfl]
    rfl
  · simp only [if_neg hc]
    show deserializeFramesGo buf.length buf = ([], buf)
    rcases hn : buf.length with _ | k
    · have hb : buf = [] := List.eq_nil_of_length_eq_zero hn
      subst hb
      rfl
    · simp only [deserializeFramesGo, if_neg hc]

/-- Extraction leaves a frame-free buffer untouched. -/
theorem dLP_of_frameFree {buf : List Nat} (h : frameFree buf) :
    deserializeFramesLP buf = ([], buf) := by
  rw [deserializeFramesLP_eq, if_neg h]

theorem frameFree_nil : frameFree [] := by
  decide

/-- The remainder returned by extraction never holds a complete frame
(bounded-fuel version for the induction). -/
theorem frameFree_rem_aux :
    ∀ (n : Nat) (buf : List Nat), buf.length ≤ n →
      frameFree (deserializeFramesLP buf).2 := by
  intro n
  induction n with
  | zero =>
    intro buf hm
    have hb : buf = [] := List.eq_nil_of_length_eq_zero (Nat.le_zero.mp hm)
    subst hb
    exact frameFree_nil
  | succ n ih =>
    intro buf hm
    rw [deserializeFramesLP_eq]
    by_cases hc : 3 ≤ buf.length ∧ 3 + decodeLen (buf.take 3) ≤ buf.length
    · simp only [if_pos hc]
      exact ih _ (by simp only [List.length_drop]; omega)
    · simpa only [if_neg hc] using hc

/-- The remainder returned by extraction never holds a complete frame. -/
theorem frameFree_rem (buf : List Nat) :
    frameFree (deserializeFramesLP buf).2 :=
  frameFree_rem_aux buf.length buf le_rfl

/-- A serialized non-empty frame sequence always holds a complete frame. -/
theorem not_frameFree_serializeAll_cons (f : Frame) (fs : List Frame) :
    ¬ frameFree (serializeAll (f :: fs)) := by
  intro hff
  apply hff
  have hshape : serializeAll (f :: fs) = encodeLen f.length ++ (f ++ serializeAll fs) := by
    simp [serializeAll, serializeLP]
  have htake : (serializeAll (f :: fs)).take 3 = encodeLen f.length := by
    rw [hshape]
    exact List.take_left' (length_encodeLen f.length)
  have hlen : (serializeAll (f :: fs)).length = 3 + (f.length + (serializeAll fs).length) := by
    rw [hshape]
    simp [encodeLen]
    omega
  rw [htake, decodeLen_encodeLen, hlen]
  omega

/-- Splitting an append equation at the length of the first right-hand
part, when the left-hand head is at least that long. -/
theorem append_eq_append_split {P Q A B : List Nat}
    (h : P ++ Q = A ++ B) (hlen : A.length ≤ P.length) :
    P = A ++ P.drop A.length ∧ P.drop A.length ++ Q = B := by
  have h1 : P.take A.length = A := by
    have := congrArg (List.take A.length) h
    rwa [List.take_append_of_le_length hlen, List.take_left] at this
  constructor
  · conv_lhs => rw [← List.take_append_drop A.length P]
    rw [h1]
  · have := congrArg (List.drop A.length) h
    rwa [List.drop_append_of_le_length hlen, List.drop_left] at this

/-- Extraction of a stream starting with one complete serialized frame
yields that frame and continues on the rest. -/
theorem dLP_cons (f : Frame) (rest : List Nat) :
    deserializeFramesLP (serializeLP f ++ rest) =
      (f :: (deserializeFramesLP rest).1, (deserializeFramesLP rest).2) := by
  have hshape : serializeLP f ++ rest = encodeLen f.length ++ (f ++ rest) := by
    simp [serializeLP]
  have htake : (serializeLP f ++ rest).take 3 = encodeLen f.length := by
    rw [hshape]
    exact List.take_left' (length_encodeLen f.length)
  have hlen : (serializeLP f ++ rest).length = 3 + f.length + rest.length := by
    simp [length_serializeLP]
  have hguard : 3 ≤ (serializeLP f ++ rest).length ∧
      3 + decodeLen ((serializeLP f ++ rest).take 3) ≤ (serializeLP f ++ rest).length := by
    rw [htake, decodeLen_encodeLen, hlen]
    omega
  rw [deserializeFramesLP_eq, if_pos hguard, htake, decodeLen_encodeLen]
  have hdrop3 : (serializeLP f ++ rest).drop 3 = f ++ rest := by
    rw [hshape]
    exact List.drop_left' (length_encodeLen f.length)
  have hdropAll : (serializeLP f ++ rest).drop (3 + f.length) = rest :=
    List.drop_left' (length_serializeLP f)
  rw [hdrop3, hdropAll, List.take_left]

/-- A strict byte-level front part of a single serialized frame holds no
complete frame: extraction stalls and keeps all bytes buffered. -/
theorem dLP_partial (f : Frame) (P Q T : List Nat)
    (h : P ++ Q = serializeLP f ++ T) (hlt : P.length < 3 + f.length) :
    deserializeFramesLP P = ([], P) := by
  apply dLP_of_frameFree
  intro hc
  obtain ⟨h3, hfull⟩ := hc
  have htake : P.take 3 = encodeLen f.length := by
    have h1 : (P ++ Q).take 3 = P.take 3 := List.take_append_of_le_length h3
    have h2 : (serializeLP f ++ T).take 3 = encodeLen f.length := by
      have hshape : serializeLP f ++ T = encodeLen f.length ++ (f ++ T) := by
        simp [serializeLP]
      rw [hshape]
      exact List.take_left' (length_encodeLen f.length)
    rw [← h1, h, h2]
  rw [htake, decodeLen_encodeLen] at hfull
  omega

/-- Extraction on any byte-level front part of a serialized frame
sequence returns exactly the fully contained frames, in order, and
buffers the strictly trailing rest. -/
theorem dLP_of_front :
    ∀ (fs : List Frame) (P Q : List Nat), P ++ Q = serializeAll fs →
      ∃ k rem, deserializeFramesLP P = (fs.take k, rem) ∧
        serializeAll (fs.take k) ++ rem = P := by
  intro fs
  induction fs with
  | nil =>
    intro P Q h
    have hP : P = [] := (List.append_eq_nil.mp (by simpa [serializeAll] using h)).1
    subst hP
    exact ⟨0, [], by simp [deserializeFramesLP, deserializeFramesGo, serializeAll]⟩
  | cons f fs ih =>
    intro P Q h
    have h' : P ++ Q = serializeLP f ++ serializeAll fs := by
      simpa [serializeAll] using h
    by_cases hlen : P.length < 3 + f.length
    · refine ⟨0, P, dLP_partial f P Q (serializeAll fs) h' hlen, by simp [serializeAll]⟩
    · push_neg at hlen
      have hlen' : (serializeLP f).length ≤ P.length := by
        rw [length_serializeLP]
        exact hlen
      obtain ⟨hPsplit, hQsplit⟩ := append_eq_append_split h' hlen'
      obtain ⟨k, rem, hd, hser⟩ :=
        ih (P.drop (serializeLP f).length) Q hQsplit
      refine ⟨k + 1, rem, ?_, ?_⟩
      · rw [hPsplit, dLP_cons, hd]
        simp [List.take_succ_cons]
      · rw [List.take_succ_cons]
        have hcons : serializeAll (f :: fs.take k) =
            serializeLP f ++ serializeAll (fs.take k) := rfl
        rw [hcons, List.append_assoc, hser, ← hPsplit]

/-- Feeding any chunking of a serialized frame sequence through repeated
append-and-extract, starting from a frame-free buffered remainder,
recovers exactly the frames in order and ends with an empty buffer. -/
theorem feedBytes_complete :
    ∀ (chunks : List (List Nat)) (fs : List Frame) (B : List Nat),
      frameFree B → B ++ joinChunks chunks = serializeAll fs →
      feedBytes B chunks = (fs, []) := by
  intro chunks
  induction chunks with
  | nil =>
    intro fs B hff h
    have hB : B = serializeAll fs := by simpa [joinChunks] using h
    cases fs with
    | nil =>
      have : B = [] := by simpa [serializeAll] using hB
      subst this
      rfl
    | cons f fs =>
      exact absurd (hB ▸ hff) (not_frameFree_serializeAll_cons f fs)
  | cons c cs ih =>
    intro fs B hff h
    have h' : (B ++ c) ++ joinChunks cs = serializeAll fs := by
      rw [List.append_assoc]
      simpa [joinChunks] using h
    obtain ⟨k, rem, hd, hser⟩ := dLP_of_front fs (B ++ c) (joinChunks cs) h'
    have hff' : frameFree rem := by
      have := frameFree_rem (B ++ c)
      rwa [hd] at this
    have hsplitAll : serializeAll fs =
        serializeAll (fs.take k) ++ serializeAll (fs.drop k) := by
      rw [← serializeAll_append, List.take_append_drop]
    have hrem : rem ++ joinChunks cs = serializeAll (fs.drop k) := by
      have hcancel : serializeAll (fs.take k) ++ (rem ++ joinChunks cs) =
          serializeAll (fs.take k) ++ serializeAll (fs.drop k) := by
        rw [← List.append_assoc, hser, h', hsplitAll]
      exact List.append_cancel_left hcancel
    have ih' := ih (fs.drop k) rem hff' hrem
    show ((deserializeFramesLP (B ++ c)).1 ++ (feedBytes (deserializeFramesLP (B ++ c)).2 cs).1,
        (feedBytes (deserializeFramesLP (B ++ c)).2 cs).2) = (fs, [])
    rw [hd]
    simp only [ih']
    rw [List.take_append_drop]

/-! ## Connection-layer lemmas -/

theorem close_inactive {s : ConnState} (h : s.active = false) :
    close s = (s, []) := by
  simp [close, h]

theorem close_fst_active {s : ConnState} (h : s.active = true) :
    (close s).1.active = false := by
  simp [close, h]

theorem handleError_fst {s : ConnState} {e : String} :
    (handleError s e).1 = (close s).1 := rfl

theorem handleData_ok {κ : Codec} {s : ConnState} {chunk : List Nat}
    {fs : List Frame} {rem : List Nat}
    (hok : κ.deserializeFrames (s.buffer ++ chunk) = .ok (fs, rem)) :
    handleData κ s chunk = ({ s with buffer := rem }, deliverAll s.receivers fs) := by
  simp [handleData, readFrames, hok]

theorem handleData_lp (s : ConnState) (chunk : List Nat) :
    handleData lpCodec s chunk =
      ({ s with buffer := (deserializeFramesLP (s.buffer ++ chunk)).2 },
        deliverAll s.receivers (deserializeFramesLP (s.buffer ++ chunk)).1) := by
  simp [handleData, readFrames, lpCodec]

theorem handleData_codec_error {κ : Codec} {s : ConnState} {chunk : List Nat}
    {e : String}
    (herr : κ.deserializeFrames (s.buffer ++ chunk) = .error e)
    (hact : s.active = true) :
    handleData κ s chunk = handleError s e := by
  have hinactive : (handleError s e).1.active = false := by
    rw [handleError_fst]
    exact close_fst_active hact
  simp [handleData, readFrames, herr, close_inactive hinactive]

theorem onNextsFor_append (r : Nat) (a b : List Ev) :
    onNextsFor r (a ++ b) = onNextsFor r a ++ onNextsFor r b :=
  List.filterMap_append a b _

theorem filterMap_hit_of_notMem {r : Nat} {f : Frame} :
    ∀ {rs : List Nat}, r ∉ rs →
      (rs.filterMap fun r' => if r' = r then some f else none) = [] := by
  intro rs
  induction rs with
  | nil => intro _; rfl
  | cons a t ih =>
    intro hr
    rw [List.filterMap_cons]
    rw [if_neg (by intro har; exact hr (har ▸ List.mem_cons_self a t))]
    exact ih (fun h => hr (List.mem_cons_of_mem a h))

theorem filterMap_hit_of_nodup {r : Nat} {f : Frame} :
    ∀ {rs : List Nat}, rs.Nodup → r ∈ rs →
      (rs.filterMap fun r' => if r' = r then some f else none) = [f] := by
  intro rs
  induction rs with
  | nil => intro _ hr; exact absurd hr (List.not_mem_nil r)
  | cons a t ih =>
    intro hnd hr
    rw [List.filterMap_cons]
    rcases List.mem_cons.mp hr with har | hmem
    · rw [if_pos har.symm]
      rw [filterMap_hit_of_notMem (by
        intro hrt
        exact (List.nodup_cons.mp hnd).1 (har ▸ hrt))]
    · rw [if_neg (by
        intro har
        exact (List.nodup_cons.mp hnd).1 (har ▸ hmem))]
      exact ih (List.nodup_cons.mp hnd).2 hmem

theorem onNextsFor_map_onNext (r : Nat) (rs : List Nat) (f : Frame) :
    onNextsFor r (rs.map fun r' => Ev.onNext r' f) =
      rs.filterMap fun r' => if r' = r then some f else none := by
  unfold onNextsFor
  rw [List.filterMap_map]
  rfl

/-- Each receiver sees the delivery loop of one extraction as exactly
the extracted frame list, in order. -/
theorem onNextsFor_deliverAll {rs : List Nat} (hnd : rs.Nodup) {r : Nat}
    (hr : r ∈ rs) :
    ∀ fs, onNextsFor r (deliverAll rs fs) = fs := by
  intro fs
  induction fs with
  | nil => rfl
  | cons f fs ih =>
    show onNextsFor r (rs.map (fun r' => Ev.onNext r' f) ++ deliverAll rs fs) = f :: fs
    rw [onNextsFor_append, onNextsFor_map_onNext, filterMap_hit_of_nodup hnd hr, ih]
    rfl

/-- Folding `_handleData` over the chunks with the concrete codec:
the final state only has its buffer replaced by the total unconsumed
remainder, and each registered receiver sees exactly the concatenation
of all extraction results, in order. -/
theorem processChunks_lp :
    ∀ (chunks : List (List Nat)) (s : ConnState),
      (processChunks lpCodec s chunks).1 =
        { s with buffer := (feedBytes s.buffer chunks).2 } ∧
      ∀ r, r ∈ s.receivers → s.receivers.Nodup →
        onNextsFor r (processChunks lpCodec s chunks).2 =
          (feedBytes s.buffer chunks).1 := by
  intro chunks
  induction chunks with
  | nil =>
    intro s
    exact ⟨rfl, fun r _ _ => rfl⟩
  | cons c cs ih =>
    intro s
    have hstep := handleData_lp s c
    have hs₁ : (handleData lpCodec s c).1 =
        { s with buffer := (deserializeFramesLP (s.buffer ++ c)).2 } := by
      rw [hstep]
    have hrecv : (handleData lpCodec s c).1.receivers = s.receivers := by
      rw [hs₁]
    obtain ⟨ihs, ihev⟩ := ih (handleData lpCodec s c).1
    have hbuf₁ : (handleData lpCodec s c).1.buffer =
        (deserializeFramesLP (s.buffer ++ c)).2 := by
      rw [hs₁]
    constructor
    · show (processChunks lpCodec s (c :: cs)).1 = _
      have : (processChunks lpCodec s (c :: cs)).1 =
          (processChunks lpCodec (handleData lpCodec s c).1 cs).1 := rfl
      rw [this, ihs, hbuf₁, hs₁]
      show ({ s with buffer := (feedBytes (deserializeFramesLP (s.buffer ++ c)).2 cs).2 } :
          ConnState) = _
      rfl
    · intro r hr hnd
      have hevsplit : (processChunks lpCodec s (c :: cs)).2 =
          (handleData lpCodec s c).2 ++
            (processChunks lpCodec (handleData lpCodec s c).1 cs).2 := rfl
      rw [hevsplit, onNextsFor_append]
      have h1 : onNextsFor r (handleData lpCodec s c).2 =
          (deserializeFramesLP (s.buffer ++ c)).1 := by
        rw [hstep]
        exact onNextsFor_deliverAll hnd hr _
      have h2 : onNextsFor r (processChunks lpCodec (handleData lpCodec s c).1 cs).2 =
          (feedBytes (deserializeFramesLP (s.buffer ++ c)).2 cs).1 := by
        have := ihev r (by rw [hrecv]; exact hr) (by rw [hrecv]; exact hnd)
        rwa [hbuf₁] at this
      rw [h1, h2]
      rfl

/-! ## Set-semantics lemmas -/

theorem mem_insertSet_self (l : List Nat) (x : Nat) : x ∈ insertSet l x := by
  unfold insertSet
  split
  · assumption
  · simp

theorem insertSet_of_mem {l : List Nat} {x : Nat} (h : x ∈ l) :
    insertSet l x = l := by
  simp [insertSet, h]

theorem mem_insertSet_of_mem {l : List Nat} {x y : Nat} (h : y ∈ l) :
    y ∈ insertSet l x := by
  unfold insertSet
  split
  · exact h
  · exact List.mem_append_left _ h

theorem nodup_insertSet {l : List Nat} (h : l.Nodup) (x : Nat) :
    (insertSet l x).Nodup := by
  unfold insertSet
  split
  · exact h
  · next hx => simpa [List.nodup_append, h] using hx

theorem not_mem_deleteSet (l : List Nat) (x : Nat) : x ∉ deleteSet l x := by
  unfold deleteSet
  intro hx
  have := List.of_mem_filter hx
  simp at this

theorem mem_deleteSet_of_ne {l : List Nat} {x y : Nat} (h : y ∈ l) (hne : y ≠ x) :
    y ∈ deleteSet l x := by
  unfold deleteSet
  exact List.mem_filter.mpr ⟨h, by simpa using hne⟩

theorem nodup_deleteSet {l : List Nat} (h : l.Nodup) (x : Nat) :
    (deleteSet l x).Nodup :=
  List.Nodup.filter _ h

/-! ## Buffer-partition lemma (bytes already emitted are never retained) -/

/-- With genuine byte values, re-encoding the decoded length gives back
the three length bytes. -/
theorem encodeLen_decodeLen_take {buf : List Nat} (h3 : 3 ≤ buf.length)
    (hbytes : ∀ b ∈ buf, b < 256) :
    encodeLen (decodeLen (buf.take 3)) = buf.take 3 := by
  match buf, h3 with
  | a :: b :: c :: rest, _ =>
    have hb : b < 256 := hbytes b (by simp)
    have hc : c < 256 := hbytes c (by simp)
    show encodeLen (decodeLen [a, b, c]) = [a, b, c]
    simp only [decodeLen, encodeLen, List.cons.injEq, and_true]
    refine ⟨by omega, by omega, by omega⟩

/-- The serialized forms of the extracted frames followed by the
remainder reconstitute the scanned buffer exactly: extraction retains
precisely the unconsumed tail (fuel-bounded version for induction). -/
theorem dLP_partition_aux :
    ∀ (n : Nat) (buf : List Nat), buf.length ≤ n → (∀ b ∈ buf, b < 256) →
      serializeAll (deserializeFramesLP buf).1 ++ (deserializeFramesLP buf).2 = buf := by
  intro n
  induction n with
  | zero =>
    intro buf hn _
    have hb : buf = [] := List.eq_nil_of_length_eq_zero (Nat.le_zero.mp hn)
    subst hb
    rfl
  | succ n ih =>
    intro buf hn hbytes
    rw [deserializeFramesLP_eq]
    by_cases hc : 3 ≤ buf.length ∧ 3 + decodeLen (buf.take 3) ≤ buf.length
    · simp only [if_pos hc]
      have hrecbytes : ∀ b ∈ buf.drop (3 + decodeLen (buf.take 3)), b < 256 :=
        fun b hb => hbytes b (List.mem_of_mem_drop hb)
      have hreclen : (buf.drop (3 + decodeLen (buf.take 3))).length ≤ n := by
        simp only [List.length_drop]
        omega
      have ihrec := ih _ hreclen hrecbytes
      have hframelen : ((buf.drop 3).take (decodeLen (buf.take 3))).length =
          decodeLen (buf.take 3) := by
        simp only [List.length_take, List.length_drop]
        omega
      have hcons : serializeAll ((buf.drop 3).take (decodeLen (buf.take 3)) ::
          (deserializeFramesLP (buf.drop (3 + decodeLen (buf.take 3)))).1) =
        serializeLP ((buf.drop 3).take (decodeLen (buf.take 3))) ++
          serializeAll (deserializeFramesLP (buf.drop (3 + decodeLen (buf.take 3)))).1 := rfl
      show serializeAll ((buf.drop 3).take (decodeLen (buf.take 3)) ::
          (deserializeFramesLP (buf.drop (3 + decodeLen (buf.take 3)))).1) ++
            (deserializeFramesLP (buf.drop (3 + decodeLen (buf.take 3)))).2 = buf
      rw [hcons, List.append_assoc, ihrec]
      unfold serializeLP
      rw [hframelen, encodeLen_decodeLen_take hc.1 hbytes]
      have hdropdrop : buf.drop (3 + decodeLen (buf.take 3)) =
          (buf.drop 3).drop (decodeLen (buf.take 3)) := by
        rw [List.drop_drop]
      rw [List.append_assoc, hdropdrop, List.take_append_drop, List.take_append_drop]
    · simp only [if_neg hc]
      rfl

/-- The serialized forms of the extracted frames followed by the
remainder reconstitute the scanned buffer exactly. -/
theorem dLP_partition (buf : List Nat) (hbytes : ∀ b ∈ buf, b < 256) :
    serializeAll (deserializeFramesLP buf).1 ++ (deserializeFramesLP buf).2 = buf :=
  dLP_partition_aux buf.length buf le_rfl hbytes

/-! ## Step-relation lemmas -/

/-- Once inactive, every step leaves the connection inactive and leaves
the listener flag unchanged. -/
theorem step_preserves_inactive (κ : Codec) (s : ConnState) (a : Act)
    (h : s.active = false) :
    (step κ s a).1.active = false ∧
      (step κ s a).1.listenersAttached = s.listenersAttached := by
  have hclose : close s = (s, []) := close_inactive h
  have hhe : ∀ e, (handleError s e).1 = s := by
    intro e
    rw [handleError_fst, hclose]
  cases a with
  | socketClose =>
    by_cases hl : s.listenersAttached <;> simp [step, hl, hclose, h]
  | socketData chunk =>
    by_cases hl : s.listenersAttached
    · cases hd : κ.deserializeFrames (s.buffer ++ chunk) with
      | ok p =>
        have hok : κ.deserializeFrames (s.buffer ++ chunk) = Except.ok (p.1, p.2) := by
          rw [hd]
        have := handleData_ok hok
        simp [step, hl, this, h]
      | error e =>
        have h1 : (handleError s e).1 = s := hhe e
        simp [step, hl, handleData, readFrames, hd, h1, hclose, h]
    · simp [step, hl, h]
  | socketEndEvent =>
    by_cases hl : s.listenersAttached <;>
      simp [step, hl, handleEnd, hhe unexpectedCloseMsg, h]
  | socketError e =>
    by_cases hl : s.listenersAttached <;> simp [step, hl, hhe e, h]
  | apiClose => simp [step, hclose, h]
  | apiSendOne f =>
    cases hser : κ.serializeFrameWithLength f with
    | ok bytes => simp [step, sendOne, writeFrame, hser, h]
    | error e => simp [step, sendOne, writeFrame, hser, hhe e, h]
  | recvOnSubscribe r => simp [step, h]
  | recvRequest r => simp [step, h]
  | recvCancel r => simp [step, h]
  | sendOnSubscribe sid => simp [step, h]
  | sendOnNext sid f =>
    cases hser : κ.serializeFrameWithLength f with
    | ok bytes => simp [step, writeFrame, hser, h]
    | error e => simp [step, writeFrame, hser, hhe e, h]
  | sendOnComplete sid => simp [step, h]
  | sendOnError sid e => simp [step, hhe e, h]

/-- Once inactive with listeners detached, no step delivers `onNext` to
any receiver. -/
theorem step_inactive_no_onNext (κ : Codec) (s : ConnState) (a : Act)
    (h : s.active = false) (hl : s.listenersAttached = false) :
    ∀ r f, Ev.onNext r f ∉ (step κ s a).2 := by
  intro r f
  have hclose : close s = (s, []) := close_inactive h
  have hhe : ∀ e, (handleError s e).2 =
      s.receivers.map (fun r' => Ev.onError r' e) := by
    intro e
    show s.receivers.map (fun r' => Ev.onError r' e) ++ (close s).2 = _
    rw [hclose]
    simp
  cases a with
  | socketClose => simp [step, hl]
  | socketData chunk => simp [step, hl]
  | socketEndEvent => simp [step, hl]
  | socketError e => simp [step, hl]
  | apiClose => simp [step, hclose]
  | apiSendOne f' =>
    cases hser : κ.serializeFrameWithLength f' with
    | ok bytes => simp [step, sendOne, writeFrame, hser]
    | error e => simp [step, sendOne, writeFrame, hser, hhe e]
  | recvOnSubscribe r' => simp [step]
  | recvRequest r' => simp [step]
  | recvCancel r' => simp [step]
  | sendOnSubscribe sid => simp [step]
  | sendOnNext sid f' =>
    cases hser : κ.serializeFrameWithLength f' with
    | ok bytes => simp [step, writeFrame, hser]
    | error e => simp [step, writeFrame, hser, hhe e]
  | sendOnComplete sid => simp [step]
  | sendOnError sid e => simp [step, hhe e]

/-- Frames all serializable: the per-producer write loop emits exactly
one write per frame, in emission order, with the state untouched. -/
theorem emitAll_ok (κ : Codec) :
    ∀ (frames : List Frame) (s : ConnState) (ser : Frame → List Nat),
      (∀ f ∈ frames, κ.serializeFrameWithLength f = .ok (ser f)) →
      emitAll κ s frames = (s, frames.map (fun f => Ev.write (ser f))) := by
  intro frames
  induction frames with
  | nil => intro s ser _; rfl
  | cons f fs ih =>
    intro s ser hser
    have hw : writeFrame κ s f = (s, [Ev.write (ser f)]) := by
      simp [writeFrame, hser f (List.mem_cons_self f fs)]
    show ((emitAll κ (writeFrame κ s f).1 fs).1,
        (writeFrame κ s f).2 ++ (emitAll κ (writeFrame κ s f).1 fs).2) = _
    rw [hw, ih s ser (fun g hg => hser g (List.mem_cons_of_mem f hg))]
    simp

/-! ## Claim theorems -/

/-- C1: for every valid serialized frame sequence and every chunking of
its bytes, feeding the chunks through `_handleData` makes each
registered receiver observe exactly the original frames in original
order, leaving the buffer empty; and each single step concatenates the
chunk onto the buffered remainder, applies the codec extraction once,
stores the returned remainder as the buffer, and delivers the extracted
frames in extraction order. -/
theorem c1_chunked_reassembly
    (fs : List Frame) (chunks : List (List Nat)) (s : ConnState) (r : Nat)
    (_hvalid : framesOK fs)
    (hbuf : s.buffer = [])
    (hjoin : joinChunks chunks = serializeAll fs)
    (hr : r ∈ s.receivers) (hnd : s.receivers.Nodup) :
    onNextsFor r (processChunks lpCodec s chunks).2 = fs ∧
    (processChunks lpCodec s chunks).1 = { s with buffer := [] } ∧
    ∀ (s' : ConnState) (chunk : List Nat),
      handleData lpCodec s' chunk =
        ({ s' with buffer := (deserializeFramesLP (s'.buffer ++ chunk)).2 },
          deliverAll s'.receivers (deserializeFramesLP (s'.buffer ++ chunk)).1) := by
  have hfeed : feedBytes s.buffer chunks = (fs, []) := by
    rw [hbuf]
    exact feedBytes_complete chunks fs [] frameFree_nil (by simpa using hjoin)
  obtain ⟨hstate, hev⟩ := processChunks_lp chunks s
  refine ⟨?_, ?_, fun s' chunk => handleData_lp s' chunk⟩
  · rw [hev r hr hnd, hfeed]
  · rw [hstate, hfeed]

theorem c1_chunked_reassembly_witness :
    onNextsFor 1 (processChunks lpCodec { initialState with receivers := [0, 1] }
        [[0], [0, 2, 7], [8, 0, 0], [1, 5]]).2 = [[7, 8], [5]] ∧
    (processChunks lpCodec { initialState with receivers := [0, 1] }
        [[0], [0, 2, 7], [8, 0, 0], [1, 5]]).1 =
      { { initialState with receivers := [0, 1] } with buffer := [] } ∧
    handleData lpCodec initialState [0, 0, 1, 9] =
      ({ initialState with
          buffer := (deserializeFramesLP (initialState.buffer ++ [0, 0, 1, 9])).2 },
        deliverAll initialState.receivers
          (deserializeFramesLP (initialState.buffer ++ [0, 0, 1, 9])).1) :=
  have h := c1_chunked_reassembly [[7, 8], [5]] [[0], [0, 2, 7], [8, 0, 0], [1, 5]]
    { initialState with receivers := [0, 1] } 1 (by decide) rfl (by decide)
    (by decide) (by decide)
  ⟨h.1, h.2.1, h.2.2 initialState [0, 0, 1, 9]⟩

/-- C2: close() on an active connection emits, in order, the close
resolution, onComplete to every registered receiver, cancel to every
registered sender, listener detachment and socket termination, and moves
to the closed state (inactive, both sets cleared); a second close() is a
no-op, and so is close() on any inactive state, so receivers are
completed and senders cancelled exactly once however many times close()
runs. -/
theorem c2_close_idempotent (s : ConnState) (hact : s.active = true) :
    close s =
      ({ active := false, buffer := s.buffer, closeResolved := true,
         receivers := [], senders := [], listenersAttached := false,
         socketEnded := true },
        Ev.resolveClose ::
          (s.receivers.map Ev.onComplete ++ s.senders.map Ev.cancelSender ++
            [Ev.detachListeners, Ev.socketEnd])) ∧
    close (close s).1 = ((close s).1, []) ∧
    (∀ t : ConnState, t.active = false → close t = (t, [])) := by
  refine ⟨by simp [close, hact], close_inactive (close_fst_active hact),
    fun t ht => close_inactive ht⟩

theorem c2_close_idempotent_witness :
    close { initialState with receivers := [3], senders := [5] } =
      ({ active := false, buffer := [], closeResolved := true, receivers := [],
         senders := [], listenersAttached := false, socketEnded := true },
        [Ev.resolveClose, Ev.onComplete 3, Ev.cancelSender 5, Ev.detachListeners,
          Ev.socketEnd]) ∧
    close (close { initialState with receivers := [3], senders := [5] }).1 =
      ((close { initialState with receivers := [3], senders := [5] }).1, []) ∧
    close (close initialState).1 = ((close initialState).1, []) :=
  have h := c2_close_idempotent { initialState with receivers := [3], senders := [5] } rfl
  ⟨h.1, h.2.1, h.2.2 (close initialState).1 (by decide)⟩

/-- C3 counterexample: two parts of the claim are false on the code.
First, "calling sendOne(frame) after close() has run produces no
observable socket write" fails: `_writeFrame` never consults `_active`,
so closing the fresh connection and then calling sendOne with frame [7]
still issues `socket.write` of its serialization. Second, "once active
is false no further onError is delivered to any receiver" fails: the
`request` callback of receive() re-registers receiver 0 after close()
with no active check, and a subsequent producer error then delivers
`onError` to that receiver. -/
theorem c3_counterexample :
    (close initialState).1.active = false ∧
    (sendOne lpCodec (close initialState).1 [7]).2 = [Ev.write (serializeLP [7])] ∧
    (step lpCodec (close initialState).1 (Act.recvRequest 0)).1.active = false ∧
    (step lpCodec (step lpCodec (close initialState).1 (Act.recvRequest 0)).1
        (Act.sendOnError 5 "boom")).2 = [Ev.onError 0 "boom"] := by
  refine ⟨by decide, by decide, by decide, ?_⟩
  rfl

/-- C3 (amended): `active` is monotonic — no step makes an inactive
connection active again; once inactive with the socket listeners
detached (the state close() leaves behind), every step keeps that state
and delivers no further onNext to any receiver; however, `_writeFrame`
does not consult `active`, so sendOne (or a producer emission) after
close() still attempts a socket write whenever the frame serializes; and
onError can still be delivered after close(): a producer error on an
inactive connection broadcasts onError to every receiver registered at
that moment (close() empties the set, but the `request` callback of
receive() re-registers receivers with no active check). -/
theorem c3_active_monotone_amended (κ : Codec) (s : ConnState) (a : Act) :
    ((step κ s a).1.active = true → s.active = true) ∧
    (s.active = false → s.listenersAttached = false →
      ((step κ s a).1.active = false ∧ (step κ s a).1.listenersAttached = false ∧
        ∀ r f, Ev.onNext r f ∉ (step κ s a).2)) ∧
    (∀ f bytes, s.active = false → κ.serializeFrameWithLength f = Except.ok bytes →
      (step κ s (Act.apiSendOne f)).2 = [Ev.write bytes]) ∧
    (∀ sid e, s.active = false →
      (step κ s (Act.sendOnError sid e)).2 =
        s.receivers.map (fun r' => Ev.onError r' e)) ∧
    (∀ r, (step κ s (Act.recvRequest r)).1.receivers = insertSet s.receivers r) := by
  refine ⟨?_, ?_, ?_, ?_, fun r => rfl⟩
  · intro hstep
    by_cases h : s.active = true
    · exact h
    · have h0 : s.active = false := by simpa using h
      rw [(step_preserves_inactive κ s a h0).1] at hstep
      exact absurd hstep (by simp)
  · intro h hl
    obtain ⟨h1, h2⟩ := step_preserves_inactive κ s a h
    exact ⟨h1, by rw [h2, hl], step_inactive_no_onNext κ s a h hl⟩
  · intro f bytes h hser
    simp [step, sendOne, writeFrame, hser]
  · intro sid e h
    show (handleError s e).2 = _
    have hclose : close s = (s, []) := close_inactive h
    show s.receivers.map (fun r' => Ev.onError r' e) ++ (close s).2 = _
    rw [hclose]
    simp

theorem c3_active_monotone_amended_witness :
    initialState.active = true ∧
    ((step lpCodec (close initialState).1 Act.apiClose).1.active = false ∧
      (step lpCodec (close initialState).1 Act.apiClose).1.listenersAttached = false ∧
      Ev.onNext 0 [7] ∉ (step lpCodec (close initialState).1 Act.apiClose).2) ∧
    (step lpCodec (close initialState).1 (Act.apiSendOne [7])).2 =
      [Ev.write (serializeLP [7])] ∧
    (step lpCodec (step lpCodec (close initialState).1 (Act.recvRequest 0)).1
        (Act.sendOnError 5 "boom")).2 =
      (step lpCodec (close initialState).1 (Act.recvRequest 0)).1.receivers.map
        (fun r' => Ev.onError r' "boom") ∧
    (step lpCodec (close initialState).1 (Act.recvRequest 0)).1.receivers =
      insertSet (close initialState).1.receivers 0 :=
  have hmono := (c3_active_monotone_amended lpCodec initialState
    (Act.recvRequest 0)).1 (by decide)
  have hinact := (c3_active_monotone_amended lpCodec (close initialState).1
    Act.apiClose).2.1 (by decide) (by decide)
  have hwrite := (c3_active_monotone_amended lpCodec (close initialState).1
    Act.apiClose).2.2.1 [7] (serializeLP [7]) (by decide) rfl
  have herr := (c3_active_monotone_amended lpCodec
    (step lpCodec (close initialState).1 (Act.recvRequest 0)).1
    Act.apiClose).2.2.2.1 5 "boom" (by decide)
  have hreq := (c3_active_monotone_amended lpCodec (close initialState).1
    Act.apiClose).2.2.2.2 0
  ⟨hmono, ⟨hinact.1, hinact.2.1, hinact.2.2 0 [7]⟩, hwrite, herr, hreq⟩

/-- C4: every post-connect failure — socket error event, socket end
event (with the synthesized unexpected-close error), codec extraction
error inside `_handleData`, and serialization error inside `_writeFrame`
— runs the one unified error path `_handleError`: onError(err) to every
currently registered receiver followed by close(), after which the close
deferred is resolved. -/
theorem c4_unified_error_path (κ : Codec) (s : ConnState) (e : String)
    (chunk : List Nat) (f : Frame)
    (hact : s.active = true)
    (hdec : κ.deserializeFrames (s.buffer ++ chunk) = Except.error e)
    (hser : κ.serializeFrameWithLength f = Except.error e) :
    (s.listenersAttached = true → step κ s (Act.socketError e) = handleError s e) ∧
    (s.listenersAttached = true →
      step κ s Act.socketEndEvent = handleError s unexpectedCloseMsg) ∧
    handleData κ s chunk = handleError s e ∧
    writeFrame κ s f = handleError s e ∧
    handleError s e =
      ((close s).1, s.receivers.map (fun r => Ev.onError r e) ++ (close s).2) ∧
    (handleError s e).1.closeResolved = true := by
  refine ⟨fun hl => by simp [step, hl], fun hl => by simp [step, hl, handleEnd],
    handleData_codec_error hdec hact, by simp [writeFrame, hser], rfl, ?_⟩
  show (close s).1.closeResolved = true
  simp [close, hact]

theorem c4_unified_error_path_witness :
    step failCodec { initialState with receivers := [4] } (Act.socketError "boom") =
      handleError { initialState with receivers := [4] } "boom" ∧
    step failCodec { initialState with receivers := [4] } Act.socketEndEvent =
      handleError { initialState with receivers := [4] } unexpectedCloseMsg ∧
    handleData failCodec { initialState with receivers := [4] } [] =
      handleError { initialState with receivers := [4] } "boom" ∧
    writeFrame failCodec { initialState with receivers := [4] } [] =
      handleError { initialState with receivers := [4] } "boom" ∧
    handleError { initialState with receivers := [4] } "boom" =
      ((close { initialState with receivers := [4] }).1,
        ({ initialState with receivers := [4] } : ConnState).receivers.map
            (fun r => Ev.onError r "boom") ++
          (close { initialState with receivers := [4] }).2) ∧
    (handleError { initialState with receivers := [4] } "boom").1.closeResolved = true :=
  have h := c4_unified_error_path failCodec { initialState with receivers := [4] }
    "boom" [] [] rfl rfl rfl
  ⟨h.1 rfl, h.2.1 rfl, h.2.2.1, h.2.2.2.1, h.2.2.2.2.1, h.2.2.2.2.2⟩

/-- C5: on one inbound chunk, every registered receiver receives every
extracted frame exactly once, in extraction order, and the delivered
frame sequence is identical across receivers — broadcast, not
partition. -/
theorem c5_broadcast_identical (κ : Codec) (s : ConnState) (chunk : List Nat)
    (fs : List Frame) (rem : List Nat) (r r' : Nat)
    (hnd : s.receivers.Nodup)
    (hok : κ.deserializeFrames (s.buffer ++ chunk) = Except.ok (fs, rem))
    (hr : r ∈ s.receivers) (hr' : r' ∈ s.receivers) :
    onNextsFor r (handleData κ s chunk).2 = fs ∧
    onNextsFor r' (handleData κ s chunk).2 = onNextsFor r (handleData κ s chunk).2 := by
  have h := handleData_ok hok
  rw [h]
  exact ⟨onNextsFor_deliverAll hnd hr fs,
    by rw [onNextsFor_deliverAll hnd hr' fs, onNextsFor_deliverAll hnd hr fs]⟩

theorem c5_broadcast_identical_witness :
    onNextsFor 2 (handleData lpCodec { initialState with receivers := [2, 9] }
        [0, 0, 1, 7, 0, 0, 2, 1]).2 = [[7]] ∧
    onNextsFor 9 (handleData lpCodec { initialState with receivers := [2, 9] }
        [0, 0, 1, 7, 0, 0, 2, 1]).2 =
      onNextsFor 2 (handleData lpCodec { initialState with receivers := [2, 9] }
        [0, 0, 1, 7, 0, 0, 2, 1]).2 :=
  c5_broadcast_identical lpCodec { initialState with receivers := [2, 9] }
    [0, 0, 1, 7, 0, 0, 2, 1] [[7]] [0, 0, 2, 1] 2 9 (by decide) rfl
    (by decide) (by decide)

/-- C6: after a data-handling step the buffer is exactly the remainder
returned by the codec extraction just performed: the serialized bytes of
the emitted frames followed by the new buffer reconstitute the scanned
bytes exactly (so no byte of an emitted frame is retained), and the
retained remainder holds no complete frame. -/
theorem c6_buffer_exact_remainder (s : ConnState) (chunk : List Nat)
    (hbytes : ∀ b ∈ s.buffer ++ chunk, b < 256) :
    (handleData lpCodec s chunk).1.buffer =
      (deserializeFramesLP (s.buffer ++ chunk)).2 ∧
    serializeAll (deserializeFramesLP (s.buffer ++ chunk)).1 ++
        (handleData lpCodec s chunk).1.buffer = s.buffer ++ chunk ∧
    frameFree (handleData lpCodec s chunk).1.buffer := by
  have h := handleData_lp s chunk
  have hb : (handleData lpCodec s chunk).1.buffer =
      (deserializeFramesLP (s.buffer ++ chunk)).2 := by rw [h]
  refine ⟨hb, ?_, ?_⟩
  · rw [hb]
    exact dLP_partition _ hbytes
  · rw [hb]
    exact frameFree_rem _

theorem c6_buffer_exact_remainder_witness :
    (handleData lpCodec { initialState with buffer := [0, 0, 2, 7] } [8, 0]).1.buffer =
      (deserializeFramesLP
        (({ initialState with buffer := [0, 0, 2, 7] } : ConnState).buffer ++ [8, 0])).2 ∧
    serializeAll (deserializeFramesLP
        (({ initialState with buffer := [0, 0, 2, 7] } : ConnState).buffer ++ [8, 0])).1 ++
        (handleData lpCodec { initialState with buffer := [0, 0, 2, 7] } [8, 0]).1.buffer =
      ({ initialState with buffer := [0, 0, 2, 7] } : ConnState).buffer ++ [8, 0] ∧
    frameFree (handleData lpCodec { initialState with buffer := [0, 0, 2, 7] } [8, 0]).1.buffer :=
  c6_buffer_exact_remainder { initialState with buffer := [0, 0, 2, 7] } [8, 0]
    (by decide)

/-- C7: a socket error during the connect attempt detaches all socket
listeners and fails the future with that underlying error, and no
duplex connection is ever constructed; on successful connect the
listeners are detached first and only then is the future resolved with
the newly constructed connection. -/
theorem c7_connect_outcomes (e : String) :
    connectRun (FirstSocketSignal.errored e) =
      [CEv.detachListeners, CEv.futureError e] ∧
    CEv.futureResolveNewConnection ∉ connectRun (FirstSocketSignal.errored e) ∧
    connectRun FirstSocketSignal.connected =
      [CEv.detachListeners, CEv.futureResolveNewConnection] := by
  refine ⟨rfl, ?_, rfl⟩
  simp [connectRun, connectOnError]

/-- C8: for a producer registered through send(): onSubscribe
immediately requests `Number.MAX_SAFE_INTEGER` (= 2^53 - 1) demand and
adds the subscription to the sender set; each emitted frame is
serialized and written in emission order; onComplete removes the
subscription from the sender set; onError runs `_handleError`, the
unified error path. -/
theorem c8_send_producer (κ : Codec) (s : ConnState) (sid : Nat) (e : String)
    (frames : List Frame) (ser : Frame → List Nat)
    (hser : ∀ f ∈ frames, κ.serializeFrameWithLength f = Except.ok (ser f)) :
    step κ s (Act.sendOnSubscribe sid) =
      ({ s with senders := insertSet s.senders sid },
        [Ev.request sid maxSafeInteger]) ∧
    sid ∈ (step κ s (Act.sendOnSubscribe sid)).1.senders ∧
    maxSafeInteger = 2 ^ 53 - 1 ∧
    (emitAll κ s frames).2 = frames.map (fun f => Ev.write (ser f)) ∧
    sid ∉ (step κ s (Act.sendOnComplete sid)).1.senders ∧
    step κ s (Act.sendOnError sid e) = handleError s e := by
  refine ⟨rfl, mem_insertSet_self s.senders sid, by norm_num [maxSafeInteger], ?_,
    not_mem_deleteSet s.senders sid, rfl⟩
  rw [emitAll_ok κ frames s ser hser]

theorem c8_send_producer_witness :
    step lpCodec initialState (Act.sendOnSubscribe 6) =
      ({ initialState with senders := insertSet initialState.senders 6 },
        [Ev.request 6 maxSafeInteger]) ∧
    6 ∈ (step lpCodec initialState (Act.sendOnSubscribe 6)).1.senders ∧
    maxSafeInteger = 2 ^ 53 - 1 ∧
    (emitAll lpCodec initialState [[1], [2, 3]]).2 =
      [[1], [2, 3]].map (fun f => Ev.write (serializeLP f)) ∧
    6 ∉ (step lpCodec initialState (Act.sendOnComplete 6)).1.senders ∧
    step lpCodec initialState (Act.sendOnError 6 "boom") =
      handleError initialState "boom" :=
  c8_send_producer lpCodec initialState 6 "boom" [[1], [2, 3]] serializeLP
    (by intro f hf; fin_cases hf <;> rfl)

/-- C9 (implicit): when the unified error path runs on an active
connection, every receiver registered at that moment first receives
onError(err) and afterwards also receives onComplete — `_handleError`
broadcasts onError without removing receivers, and the close() it then
calls completes every still-registered receiver before clearing the
set. -/
theorem c9_error_then_complete (s : ConnState) (e : String) (r : Nat)
    (hact : s.active = true) (hr : r ∈ s.receivers) :
    ∃ evs₁ evs₂, (handleError s e).2 = evs₁ ++ evs₂ ∧
      Ev.onError r e ∈ evs₁ ∧ Ev.onComplete r ∈ evs₂ ∧
      (handleError s e).1.receivers = [] := by
  refine ⟨s.receivers.map (fun r' => Ev.onError r' e), (close s).2, rfl,
    List.mem_map.mpr ⟨r, hr, rfl⟩, ?_, ?_⟩
  · show Ev.onComplete r ∈ (close s).2
    have hmem : Ev.onComplete r ∈ s.receivers.map Ev.onComplete :=
      List.mem_map.mpr ⟨r, hr, rfl⟩
    simp only [close, hact, if_true, if_pos]
    exact List.mem_cons_of_mem _ (List.mem_append_left _ (List.mem_append_left _ hmem))
  · show (close s).1.receivers = []
    simp [close, hact]

theorem c9_error_then_complete_witness :
    ∃ evs₁ evs₂,
      (handleError { initialState with receivers := [8] } "oops").2 = evs₁ ++ evs₂ ∧
      Ev.onError 8 "oops" ∈ evs₁ ∧ Ev.onComplete 8 ∈ evs₂ ∧
      (handleError { initialState with receivers := [8] } "oops").1.receivers = [] :=
  c9_error_then_complete { initialState with receivers := [8] } "oops" 8 rfl
    (by decide)

/-- C10 (implicit): a receive() subscription is put into the receiver
set only by its `request` callback — `onSubscribe` itself changes no
state; after `cancel` removes it, a later `request` on the same
subscription re-registers the same subscriber (JS `Set` semantics keep
entries unique), and the re-registered subscriber observes all frames
extracted afterwards. -/
theorem c10_receive_registration (κ : Codec) (s : ConnState) (r : Nat)
    (chunk : List Nat) (fs : List Frame) (rem : List Nat)
    (hnd : s.receivers.Nodup)
    (hok : κ.deserializeFrames
        ((step κ (step κ s (Act.recvCancel r)).1 (Act.recvRequest r)).1.buffer ++ chunk) =
      Except.ok (fs, rem)) :
    step κ s (Act.recvOnSubscribe r) = (s, []) ∧
    (step κ s (Act.recvRequest r)).1.receivers = insertSet s.receivers r ∧
    (r ∈ s.receivers → insertSet s.receivers r = s.receivers) ∧
    r ∉ (step κ s (Act.recvCancel r)).1.receivers ∧
    r ∈ (step κ (step κ s (Act.recvCancel r)).1 (Act.recvRequest r)).1.receivers ∧
    onNextsFor r (handleData κ
      (step κ (step κ s (Act.recvCancel r)).1 (Act.recvRequest r)).1 chunk).2 = fs := by
  have hrecv : (step κ (step κ s (Act.recvCancel r)).1 (Act.recvRequest r)).1.receivers
      = insertSet (deleteSet s.receivers r) r := rfl
  have hnd₂ : (step κ (step κ s (Act.recvCancel r)).1 (Act.recvRequest r)).1.receivers.Nodup := by
    rw [hrecv]
    exact nodup_insertSet (nodup_deleteSet hnd r) r
  have hr₂ : r ∈ (step κ (step κ s (Act.recvCancel r)).1 (Act.recvRequest r)).1.receivers := by
    rw [hrecv]
    exact mem_insertSet_self _ r
  refine ⟨rfl, rfl, fun h => insertSet_of_mem h, not_mem_deleteSet s.receivers r, hr₂, ?_⟩
  rw [handleData_ok hok]
  exact onNextsFor_deliverAll hnd₂ hr₂ fs

theorem c10_receive_registration_witness :
    step lpCodec { initialState with receivers := [7] } (Act.recvOnSubscribe 7) =
      ({ initialState with receivers := [7] }, []) ∧
    (step lpCodec { initialState with receivers := [7] } (Act.recvRequest 7)).1.receivers =
      insertSet ({ initialState with receivers := [7] } : ConnState).receivers 7 ∧
    insertSet ({ initialState with receivers := [7] } : ConnState).receivers 7 =
      ({ initialState with receivers := [7] } : ConnState).receivers ∧
    7 ∉ (step lpCodec { initialState with receivers := [7] } (Act.recvCancel 7)).1.receivers ∧
    7 ∈ (step lpCodec (step lpCodec { initialState with receivers := [7] }
        (Act.recvCancel 7)).1 (Act.recvRequest 7)).1.receivers ∧
    onNextsFor 7 (handleData lpCodec
      (step lpCodec (step lpCodec { initialState with receivers := [7] }
        (Act.recvCancel 7)).1 (Act.recvRequest 7)).1 [0, 0, 1, 5]).2 = [[5]] :=
  have h := c10_receive_registration lpCodec { initialState with receivers := [7] } 7
    [0, 0, 1, 5] [[5]] [] (by decide) rfl
  ⟨h.1, h.2.1, h.2.2.1 (by decide), h.2.2.2.1, h.2.2.2.2.1, h.2.2.2.2.2⟩

end RSocketTcp
